import Mathlib

/-!
Shallow embedding of the metadata normalization/aggregation pipeline of
`scripts/explore.py` and `scripts/app.py` (a CORD-19-style metadata explorer),
together with theorems settling the specification claims about it.

Strings are modelled as `List Char` (ASCII fragment, which covers every
character class the pipeline inspects); dataframes as association lists from
column name to a list of nullable cells (`Option String`); nullable values as
`Option`.
-/

namespace WF

/-! ## Character classes (ASCII model of the Python predicates used) -/

/-- Python whitespace (`str.strip` / `str.split` with no arguments):
space, tab, newline, carriage return, vertical tab, form feed. -/
def isWs (c : Char) : Bool :=
  c.toNat = 32 || c.toNat = 9 || c.toNat = 10 || c.toNat = 13 ||
  c.toNat = 11 || c.toNat = 12

/-- `str.lower` on the ASCII range: map `A`-`Z` to `a`-`z`, leave the rest. -/
def lowerChar (c : Char) : Char :=
  if 65 ≤ c.toNat && c.toNat ≤ 90 then Char.ofNat (c.toNat + 32) else c

/-- The character class of the regex `[ \/\-#]` in `normalize_columns`:
space, slash, hyphen, hash. -/
def isSep (c : Char) : Bool :=
  c.toNat = 32 || c.toNat = 47 || c.toNat = 45 || c.toNat = 35

/-- One step of `str.replace(r"[ \/\-#]", "_")`. -/
def sepRepl (c : Char) : Char :=
  if isSep c then '_' else c

/-- The character class `[0-9a-zA-Z_]`: the complement of what
`str.replace(r"[^0-9a-zA-Z_]", "")` deletes, and also the ASCII word
characters of the regex `\w` used for title tokenization. -/
def isWordChar (c : Char) : Bool :=
  (48 ≤ c.toNat && c.toNat ≤ 57) || (65 ≤ c.toNat && c.toNat ≤ 90) ||
  (97 ≤ c.toNat && c.toNat ≤ 122) || c.toNat = 95

/-- A character allowed in a canonical column name: digit, lowercase ASCII
letter, or underscore. -/
def isCanonical (c : Char) : Bool :=
  (48 ≤ c.toNat && c.toNat ≤ 57) || (97 ≤ c.toNat && c.toNat ≤ 122) ||
  c.toNat = 95

/-! ## Column normalization (`normalize_columns` in explore.py, duplicated in
app.py's `load_df`) -/

/-- `str.strip()`: drop whitespace from both ends. -/
def stripChars (l : List Char) : List Char :=
  ((l.dropWhile isWs).reverse.dropWhile isWs).reverse

/-- The column transform of `normalize_columns`:
`.str.strip().str.lower().str.replace(r"[ \/\-#]", "_").str.replace(r"[^0-9a-zA-Z_]", "")`. -/
def normalizeColumn (l : List Char) : List Char :=
  (((stripChars l).map lowerChar).map sepRepl).filter isWordChar

/-- The transform as the specification words it: strip whitespace, lowercase,
replace each space/slash/hyphen/`#` with an underscore, then delete every
remaining character that is not alphanumeric or underscore. -/
def specNormalizeColumn (l : List Char) : List Char :=
  ((((stripChars l).map lowerChar).map sepRepl).filter isWordChar)

/-- `normalize_columns` applied to a header given as a `String`. -/
def normName (s : String) : String :=
  (normalizeColumn s.data).asString

/-! ### Character-level lemmas -/

theorem lowerChar_not_upper (c : Char) :
    ¬ (65 ≤ (lowerChar c).toNat ∧ (lowerChar c).toNat ≤ 90) := by
  unfold lowerChar
  by_cases h : (65 ≤ c.toNat && c.toNat ≤ 90) = true
  · rw [if_pos h]
    simp only [Bool.and_eq_true, decide_eq_true_eq] at h
    obtain ⟨h1, h2⟩ := h
    set n := c.toNat with hn
    interval_cases n <;> decide
  · rw [if_neg h]
    simp only [Bool.and_eq_true, decide_eq_true_eq, not_and] at h
    omega

theorem mem_normalizeColumn_canonical {l : List Char} {c : Char}
    (h : c ∈ normalizeColumn l) : isCanonical c = true := by
  unfold normalizeColumn at h
  rw [List.mem_filter] at h
  obtain ⟨hmem, hword⟩ := h
  rw [List.mem_map] at hmem
  obtain ⟨d, hd, hrepl⟩ := hmem
  rw [List.mem_map] at hd
  obtain ⟨e, _, hlow⟩ := hd
  unfold sepRepl at hrepl
  by_cases hsep : isSep d = true
  · rw [if_pos hsep] at hrepl
    rw [← hrepl]; decide
  · rw [if_neg hsep] at hrepl
    subst hrepl
    subst hlow
    have hup := lowerChar_not_upper e
    simp only [isWordChar, Bool.or_eq_true, Bool.and_eq_true,
      decide_eq_true_eq] at hword
    simp only [isCanonical, Bool.or_eq_true, Bool.and_eq_true,
      decide_eq_true_eq]
    omega

theorem canonical_not_ws {c : Char} (h : isCanonical c = true) :
    isWs c = false := by
  simp only [isCanonical, Bool.or_eq_true, Bool.and_eq_true,
    decide_eq_true_eq] at h
  simp only [isWs, Bool.or_eq_false_iff, decide_eq_false_iff_not]
  omega

theorem canonical_lowerChar {c : Char} (h : isCanonical c = true) :
    lowerChar c = c := by
  simp only [isCanonical, Bool.or_eq_true, Bool.and_eq_true,
    decide_eq_true_eq] at h
  unfold lowerChar
  rw [if_neg]
  simp only [Bool.and_eq_true, decide_eq_true_eq, not_and]
  omega

theorem canonical_sepRepl {c : Char} (h : isCanonical c = true) :
    sepRepl c = c := by
  simp only [isCanonical, Bool.or_eq_true, Bool.and_eq_true,
    decide_eq_true_eq] at h
  unfold sepRepl
  rw [if_neg]
  simp only [isSep, Bool.or_eq_true, decide_eq_true_eq]
  omega

theorem canonical_word {c : Char} (h : isCanonical c = true) :
    isWordChar c = true := by
  simp only [isCanonical, Bool.or_eq_true, Bool.and_eq_true,
    decide_eq_true_eq] at h
  simp only [isWordChar, Bool.or_eq_true, Bool.and_eq_true,
    decide_eq_true_eq]
  omega

/-! ### List-level helper lemmas -/

theorem map_id_of_mem {α : Type} {l : List α} {f : α → α}
    (h : ∀ a ∈ l, f a = a) : l.map f = l := by
  induction l with
  | nil => rfl
  | cons x xs ih =>
    simp only [List.map_cons, h x (by simp), List.cons.injEq, true_and]
    exact ih fun a ha => h a (by simp [ha])

theorem dropWhile_id_of_mem {α : Type} {l : List α} {p : α → Bool}
    (h : ∀ a ∈ l, p a = false) : l.dropWhile p = l := by
  cases l with
  | nil => rfl
  | cons x xs =>
    rw [List.dropWhile_cons_of_neg]
    simp [h x (by simp)]

theorem stripChars_id_of_mem {l : List Char}
    (h : ∀ c ∈ l, isWs c = false) : stripChars l = l := by
  unfold stripChars
  rw [dropWhile_id_of_mem h, dropWhile_id_of_mem, List.reverse_reverse]
  intro c hc
  exact h c (List.mem_reverse.mp hc)

theorem normalizeColumn_idem (l : List Char) :
    normalizeColumn (normalizeColumn l) = normalizeColumn l := by
  have hcan : ∀ c ∈ normalizeColumn l, isCanonical c = true :=
    fun c hc => mem_normalizeColumn_canonical hc
  conv_lhs => rw [normalizeColumn]
  rw [stripChars_id_of_mem fun c hc => canonical_not_ws (hcan c hc)]
  rw [map_id_of_mem fun c hc => canonical_lowerChar (hcan c hc)]
  rw [map_id_of_mem fun c hc => canonical_sepRepl (hcan c hc)]
  rw [List.filter_eq_self.mpr fun c hc => canonical_word (hcan c hc)]

/-! ## Title tokenization and top-words table (explore.py, bottom of `main`) -/

/-- Split a character list into the maximal runs of characters satisfying `p`
(accumulator holds the current run, reversed). -/
def splitRunsAux (p : Char → Bool) : List Char → List Char → List (List Char)
  | [], acc => if acc.isEmpty then [] else [acc.reverse]
  | c :: cs, acc =>
    if p c then splitRunsAux p cs (c :: acc)
    else if acc.isEmpty then splitRunsAux p cs []
    else acc.reverse :: splitRunsAux p cs []

/-- Maximal runs of characters satisfying `p`; empty runs are dropped. -/
def splitRuns (p : Char → Bool) (l : List Char) : List (List Char) :=
  splitRunsAux p l []

/-- `re.findall(r"\b\w+\b", text)`: the maximal runs of word characters. -/
def tokenize (l : List Char) : List (List Char) :=
  splitRuns isWordChar l

/-- Python `str.split()` with no arguments: maximal runs of non-whitespace. -/
def pySplit (l : List Char) : List (List Char) :=
  splitRuns (fun c => !isWs c) l

/-- `len(s.split())`: the number of whitespace-delimited tokens. -/
def wordCount (l : List Char) : Nat :=
  (pySplit l).length

/-- The fixed stopword set of explore.py (generic English stopwords plus
domain-specific terms). -/
def stopwords : List (List Char) :=
  ["the".data, "and".data, "of".data, "in".data, "to".data, "a".data,
   "for".data, "on".data, "with".data, "by".data, "an".data, "is".data,
   "from".data, "that".data, "are".data, "as".data, "at".data, "be".data,
   "this".data, "we".data, "our".data, "or".data, "using".data, "use".data,
   "study".data, "studies".data, "paper".data, "research".data, "covid".data,
   "covid19".data, "coronavirus".data, "sars".data, "sarscov2".data,
   "2019".data, "2019ncov".data, "novel".data]

/-- `[w for w in words if w not in stopwords and len(w) > 2]`. -/
def filterTokens (ws : List (List Char)) : List (List Char) :=
  ws.filter fun w => decide (w ∉ stopwords) && decide (2 < w.length)

/-- One `Counter` update: increment the count of `w`, appending a fresh key
(count 1) at the end on first encounter. -/
def bump (w : List Char) : List (List Char × Nat) → List (List Char × Nat)
  | [] => [(w, 1)]
  | p :: ps => if p.1 = w then (p.1, p.2 + 1) :: ps else p :: bump w ps

/-- `Counter(filtered)`: counts keyed in first-encountered order. -/
def countAux : List (List Char × Nat) → List (List Char) → List (List Char × Nat)
  | acc, [] => acc
  | acc, w :: ws => countAux (bump w acc) ws

/-- `Counter.most_common(k)`: stable sort by descending count (ties keep
first-encountered order), truncated to `k` entries. -/
def mostCommon (k : Nat) (counts : List (List Char × Nat)) :
    List (List Char × Nat) :=
  (counts.insertionSort fun a b => b.2 ≤ a.2).take k

/-- The whole top-title-words computation of explore.py: join the titles with
spaces, lowercase, tokenize on `\w+` runs, drop stopwords and short tokens,
count, and keep the 200 most common. -/
def topTitleWords (titles : List (List Char)) : List (List Char × Nat) :=
  mostCommon 200 (countAux []
    (filterTokens (tokenize ((List.intercalate [' '] titles).map lowerChar))))

theorem bump_key_mem {w : List Char} {acc : List (List Char × Nat)} :
    ∀ p ∈ bump w acc, p.1 = w ∨ p.1 ∈ acc.map Prod.fst := by
  induction acc with
  | nil => intro p hp; simp only [bump, List.mem_singleton] at hp; left; rw [hp]
  | cons q qs ih =>
    intro p hp
    unfold bump at hp
    by_cases h : q.1 = w
    · rw [if_pos h] at hp
      rcases List.mem_cons.mp hp with h1 | h1
      · left; rw [h1]; exact h
      · right; rw [List.map_cons]
        exact List.mem_cons_of_mem _ (List.mem_map_of_mem Prod.fst h1)
    · rw [if_neg h] at hp
      rcases List.mem_cons.mp hp with h1 | h1
      · right; rw [h1, List.map_cons]; exact List.mem_cons_self _ _
      · rcases ih p h1 with h2 | h2
        · left; exact h2
        · right; rw [List.map_cons]; exact List.mem_cons_of_mem _ h2

theorem countAux_key_mem {ws : List (List Char)} :
    ∀ {acc : List (List Char × Nat)}, ∀ p ∈ countAux acc ws,
      p.1 ∈ acc.map Prod.fst ∨ p.1 ∈ ws := by
  induction ws with
  | nil => intro acc p hp; left; exact List.mem_map_of_mem _ hp
  | cons w ws ih =>
    intro acc p hp
    rcases ih p hp with h | h
    · rw [List.mem_map] at h
      obtain ⟨q, hq, hq1⟩ := h
      rcases bump_key_mem q hq with h1 | h1
      · right; rw [← hq1, h1]; simp
      · left; rw [← hq1]; exact h1
    · right; simp [h]

theorem mem_topTitleWords {titles : List (List Char)} {w : List Char} {c : Nat}
    (h : (w, c) ∈ topTitleWords titles) : w ∉ stopwords ∧ 2 < w.length := by
  unfold topTitleWords mostCommon at h
  have h1 := List.mem_of_mem_take h
  have h2 := (List.perm_insertionSort
    (fun a b : List Char × Nat => b.2 ≤ a.2) _).mem_iff.mp h1
  have h3 := countAux_key_mem (w, c) h2
  simp only [List.map_nil, List.not_mem_nil, false_or] at h3
  have h4 := (List.mem_filter.mp h3).2
  simp only [Bool.and_eq_true, decide_eq_true_eq] at h4
  exact h4

/-! ## Dataframe model

A table is an association list from column name to a column of nullable
cells; `pd.NA`/`NaN` is `none`.  `df["x"]` reads the first column labelled
`x`; `df["x"] = col` overwrites the columns labelled `x` (appending a new
column at the end when the label is absent), mirroring pandas item access
and assignment. -/

/-- A nullable table cell. -/
abbrev Cell := Option String

/-- A dataframe: columns in order, each a name with its cells. -/
abbrev Table := List (String × List Cell)

/-- `df[name]`: the first column labelled `name`, if any. -/
def getCol (t : Table) (name : String) : Option (List Cell) :=
  (t.find? fun p => p.1 == name).map Prod.snd

/-- `df[name] = col`: replace the columns labelled `name`, or append one. -/
def setCol (t : Table) (name : String) (col : List Cell) : Table :=
  if t.any fun p => p.1 == name then
    t.map fun p => if p.1 == name then (name, col) else p
  else t ++ [(name, col)]

/-- One text-field fill of explore.py: `df[name] = df[name].fillna("")` when
the column is present, `df[name] = ""` (an all-empty column) when absent. -/
def fillColumn (t : Table) (nrows : Nat) (name : String) : Table :=
  match getCol t name with
  | some col => setCol t name (col.map fun c => some (c.getD ""))
  | none => setCol t name (List.replicate nrows (some ""))

/-- The text-field fill explore.py actually performs: only `abstract` and
`title` are filled (lines 93-101 of explore.py). -/
def fillTextExplore (t : Table) (nrows : Nat) : Table :=
  fillColumn (fillColumn t nrows "abstract") nrows "title"

/-- The column `name` is present and contains no null. -/
def textFieldFilled (t : Table) (name : String) : Bool :=
  match getCol t name with
  | some col => col.all fun c => c.isSome
  | none => false

/-- All five spec text fields are present and null-free. -/
def allTextFieldsFilled (t : Table) : Bool :=
  ["title", "abstract", "authors", "journal", "source_x"].all
    fun n => textFieldFilled t n

theorem find?_map_replace (t : Table) (name : String) (col : List Cell) :
    List.find? (fun p => p.1 == name)
        (t.map fun p => if p.1 == name then (name, col) else p) =
      if t.any fun p => p.1 == name then some (name, col) else none := by
  induction t with
  | nil => rfl
  | cons q qs ih =>
    rw [List.map_cons, List.any_cons]
    by_cases h : (q.1 == name) = true
    · rw [if_pos h, h, Bool.true_or, if_pos rfl]
      simp only [List.find?_cons, beq_self_eq_true]
    · have hf : (q.1 == name) = false := by simpa using h
      rw [if_neg h, hf, Bool.false_or]
      simp only [List.find?_cons, hf]
      exact ih

theorem getCol_setCol_self (t : Table) (name : String) (col : List Cell) :
    getCol (setCol t name col) name = some col := by
  unfold getCol setCol
  by_cases h : (t.any fun p => p.1 == name) = true
  · rw [if_pos h, find?_map_replace, if_pos h]
    rfl
  · rw [if_neg h, List.find?_append]
    have hf : (t.any fun p => p.1 == name) = false := by
      rwa [Bool.not_eq_true] at h
    have hnone : List.find? (fun p => p.1 == name) t = none := by
      rw [List.find?_eq_none]
      intro p hp
      exact List.any_eq_false.mp hf p hp
    rw [hnone]
    simp only [Option.none_or, List.find?_cons, beq_self_eq_true]
    rfl

theorem getCol_setCol_ne (t : Table) (name other : String) (col : List Cell)
    (h : other ≠ name) : getCol (setCol t name col) other = getCol t other := by
  have hno : (name == other) = false := beq_eq_false_iff_ne.mpr (Ne.symm h)
  unfold getCol setCol
  by_cases hany : (t.any fun p => p.1 == name) = true
  · rw [if_pos hany]
    congr 1
    clear hany
    induction t with
    | nil => rfl
    | cons q qs ih =>
      rw [List.map_cons]
      by_cases hq : (q.1 == name) = true
      · have hq1 : q.1 = name := eq_of_beq hq
        have hqo : (q.1 == other) = false := by rw [hq1]; exact hno
        rw [if_pos hq]
        simp only [List.find?_cons, hno, hqo]
        exact ih
      · rw [if_neg hq]
        by_cases ho : (q.1 == other) = true
        · simp only [List.find?_cons, ho]
        · have hof : (q.1 == other) = false := by simpa using ho
          simp only [List.find?_cons, hof]
          exact ih
  · rw [if_neg hany, List.find?_append]
    have hlast : List.find? (fun p => p.1 == other) [(name, col)] = none := by
      simp only [List.find?_cons, hno, List.find?_nil]
    rw [hlast, Option.or_none]

theorem fillColumn_filled (t : Table) (n : Nat) (name : String) :
    textFieldFilled (fillColumn t n name) name = true := by
  unfold fillColumn textFieldFilled
  cases hg : getCol t name with
  | some col =>
    rw [getCol_setCol_self]
    simp [List.all_eq_true]
  | none =>
    rw [getCol_setCol_self]
    simp [List.all_eq_true, List.mem_replicate]

theorem fillColumn_getCol_ne (t : Table) (n : Nat) (name other : String)
    (h : other ≠ name) : getCol (fillColumn t n name) other = getCol t other := by
  unfold fillColumn
  cases getCol t name with
  | some col => exact getCol_setCol_ne t name other _ h
  | none => exact getCol_setCol_ne t name other _ h

theorem fillTextExplore_filled (t : Table) (n : Nat) :
    textFieldFilled (fillTextExplore t n) "abstract" = true ∧
      textFieldFilled (fillTextExplore t n) "title" = true := by
  constructor
  · unfold fillTextExplore
    unfold textFieldFilled
    rw [fillColumn_getCol_ne _ _ _ _ (by decide)]
    have h := fillColumn_filled t n "abstract"
    unfold textFieldFilled at h
    exact h
  · exact fillColumn_filled _ n "title"

/-! ## Year derivation (`publish_time` parsing) -/

/-- Split a character list on hyphens (accumulator holds the current piece,
reversed). -/
def splitDashAux : List Char → List Char → List (List Char)
  | [], acc => [acc.reverse]
  | c :: cs, acc =>
    if c.toNat = 45 then acc.reverse :: splitDashAux cs []
    else splitDashAux cs (c :: acc)

/-- Is `c` an ASCII digit. -/
def isDigitChar (c : Char) : Bool :=
  48 ≤ c.toNat && c.toNat ≤ 57

/-- Decimal value of a digit string. -/
def digitsToNat (l : List Char) : Nat :=
  l.foldl (fun a c => a * 10 + (c.toNat - 48)) 0

/-- A nonempty all-digit character list. -/
def allDigits (l : List Char) : Bool :=
  l.all isDigitChar && !l.isEmpty

/-- Modelled from the spec: `pd.to_datetime(..., errors="coerce")` is external
library code (only its call site is in the repository); per the spec it
parses `publish_time` into a date and yields null for unparseable values,
never raising.  The model accepts ISO-style `YYYY`, `YYYY-MM` and
`YYYY-MM-DD` strings and returns `none` for everything else. -/
def toDatetime (s : String) : Option (Nat × Nat × Nat) :=
  match splitDashAux s.data [] with
  | [y] =>
    if allDigits y && decide (y.length = 4) then some (digitsToNat y, 1, 1)
    else none
  | [y, m] =>
    if (allDigits y && decide (y.length = 4)) &&
        (allDigits m && decide (m.length ≤ 2) &&
          decide (1 ≤ digitsToNat m) && decide (digitsToNat m ≤ 12)) then
      some (digitsToNat y, digitsToNat m, 1)
    else none
  | [y, m, d] =>
    if (allDigits y && decide (y.length = 4)) &&
        (allDigits m && decide (m.length ≤ 2) &&
          decide (1 ≤ digitsToNat m) && decide (digitsToNat m ≤ 12)) &&
        (allDigits d && decide (d.length ≤ 2) &&
          decide (1 ≤ digitsToNat d) && decide (digitsToNat d ≤ 31)) then
      some (digitsToNat y, digitsToNat m, digitsToNat d)
    else none
  | _ => none

/-- `.dt.year` applied to one parsed cell: a null (`NaN`) or unparseable
(`NaT`) value has a null year, a parsed date its calendar year. -/
def yearCell (c : Cell) : Option Nat :=
  (c.bind toDatetime).map Prod.fst

/-- The `year` derivation of explore.py lines 86-90 (and app.py lines 41-45):
parse the `publish_time` column when present, otherwise an all-null column. -/
def deriveYear (t : Table) (nrows : Nat) : List (Option Nat) :=
  match getCol t "publish_time" with
  | some col => col.map yearCell
  | none => List.replicate nrows none

/-! ## Word counts (explore.py lines 104-105) -/

/-- `s.split()` then `len`, lifted over a nullable cell as the pandas `.str`
accessor does (null propagates). -/
def wordCountCell (c : Cell) : Option Nat :=
  c.map fun s => wordCount s.data

/-- `df["abstract"].str.split().str.len()` over the table. -/
def abstractWordCounts (t : Table) : List (Option Nat) :=
  ((getCol t "abstract").getD []).map wordCountCell

/-- `df["title"].str.split().str.len()` over the table. -/
def titleWordCounts (t : Table) : List (Option Nat) :=
  ((getCol t "title").getD []).map wordCountCell

theorem filled_wordCounts_some {t : Table} {name : String}
    (h : textFieldFilled t name = true) :
    (((getCol t name).getD []).map wordCountCell).all Option.isSome = true := by
  unfold textFieldFilled at h
  split at h
  case h_2 => exact absurd h (by decide)
  case h_1 col hg =>
    have hall : (col.all fun c => c.isSome) = true := h
    rw [hg]
    simp only [Option.getD_some, List.all_eq_true]
    intro x hx
    rw [List.mem_map] at hx
    obtain ⟨c, hc, hcx⟩ := hx
    rw [List.all_eq_true] at hall
    have hcs := hall c hc
    cases c with
    | none => exact absurd hcs (by simp)
    | some s => rw [← hcx]; rfl

/-! ## Sampling (explore.py lines 113-118)

`df.sample(n=min(sample_size, len(df)), random_state=42)` draws that many
distinct rows, deterministically for a fixed seed.  The underlying numpy
pseudo-random choice is external library code; it is modelled as a
deterministic without-replacement draw driven by a linear congruential
generator, which has the same interface contract (a pure function of seed
and input producing distinct positions). -/

/-- Modelled from the spec: the pseudo-random number stream behind
`DataFrame.sample(random_state=42)` (external library code); any
deterministic generator realises the reproducible-sampling contract. -/
def lcg (s : Nat) : Nat :=
  (s * 1103515245 + 12345) % 2147483648

/-- Draw up to `k` rows without replacement, consuming the generator state. -/
def drawAux {α : Type} : Nat → Nat → List α → List α
  | 0, _, _ => []
  | _ + 1, _, [] => []
  | k + 1, s, x :: xs =>
    let i := s % (xs.length + 1)
    have hi : i < (x :: xs).length := by
      rw [List.length_cons]
      exact Nat.mod_lt s (Nat.succ_pos xs.length)
    (x :: xs).get ⟨i, hi⟩ :: drawAux k (lcg s) ((x :: xs).eraseIdx i)

/-- `df.sample(n=min(sample_size, len(df)), random_state=42)`. -/
def sampleDf {α : Type} (sampleSize : Nat) (rows : List α) : List α :=
  drawAux (min sampleSize rows.length) 42 rows

theorem get_cons_eraseIdx_perm {α : Type} :
    ∀ (l : List α) (i : Nat) (h : i < l.length),
      List.Perm (l.get ⟨i, h⟩ :: l.eraseIdx i) l := by
  intro l
  induction l with
  | nil => intro i h; exact absurd h (by simp)
  | cons x xs ih =>
    intro i h
    cases i with
    | zero => exact List.Perm.refl _
    | succ j =>
      have hj : j < xs.length := by
        rw [List.length_cons] at h
        omega
      show List.Perm (xs.get ⟨j, hj⟩ :: x :: xs.eraseIdx j) (x :: xs)
      exact (List.Perm.swap x (xs.get ⟨j, hj⟩) _).trans
        (List.Perm.cons x (ih j hj))

theorem drawAux_length {α : Type} :
    ∀ (k s : Nat) (l : List α), (drawAux k s l).length = min k l.length := by
  intro k
  induction k with
  | zero => intro s l; simp [drawAux]
  | succ k ih =>
    intro s l
    cases l with
    | nil => simp [drawAux]
    | cons x xs =>
      rw [drawAux]
      rw [List.length_cons, ih]
      rw [List.length_eraseIdx_of_lt]
      · rw [List.length_cons]
        omega
      · rw [List.length_cons]
        exact Nat.mod_lt s (Nat.succ_pos xs.length)

theorem drawAux_perm {α : Type} :
    ∀ (k s : Nat) (l : List α), l.length ≤ k →
      List.Perm (drawAux k s l) l := by
  intro k
  induction k with
  | zero =>
    intro s l hl
    have : l = [] := List.eq_nil_of_length_eq_zero (Nat.le_zero.mp hl)
    subst this
    exact List.Perm.refl _
  | succ k ih =>
    intro s l hl
    cases l with
    | nil => exact List.Perm.refl _
    | cons x xs =>
      rw [drawAux]
      have hi : s % (xs.length + 1) < (x :: xs).length := by
        rw [List.length_cons]
        exact Nat.mod_lt s (Nat.succ_pos xs.length)
      have herase : ((x :: xs).eraseIdx (s % (xs.length + 1))).length ≤ k := by
        rw [List.length_eraseIdx_of_lt hi, List.length_cons]
        rw [List.length_cons] at hl
        omega
      exact (List.Perm.cons _ (ih _ _ herase)).trans
        (get_cons_eraseIdx_perm (x :: xs) _ hi)

/-! ## Interactive viewer year filter (app.py lines 85-87) -/

/-- A loaded row of the viewer, reduced to the field the year filter
inspects. -/
structure AppRow where
  year : Option Int
deriving DecidableEq

/-- The boolean mask `(year >= lo) & (year <= hi)`: a null (`NaN`) year
compares false on both sides. -/
def yearInRange (lo hi : Int) (r : AppRow) : Bool :=
  match r.year with
  | some y => decide (lo ≤ y) && decide (y ≤ hi)
  | none => false

/-- app.py: `if df["year"].notna().any(): filtered = filtered[(year >= lo)
& (year <= hi)]`. -/
def applyYearFilter (lo hi : Int) (rows : List AppRow) : List AppRow :=
  if rows.any fun r => r.year.isSome then rows.filter (yearInRange lo hi)
  else rows

/-! ## Whole-table column normalization (C6) -/

/-- `df.columns = new_cols`: every column keeps its data and position, only
the label is rewritten. -/
def normalizeTable (t : Table) : Table :=
  t.map fun p => (normName p.1, p.2)

/-- A two-column table whose headers collide after normalization. -/
def exCollide : Table :=
  [("Title", [some "a"]), ("title", [some "b"])]

/-! ## Claim theorems -/

/-- Claim C1, as stated, is false on explore.py: a present `journal` column
with a null cell is left untouched by the text-field fill (only `abstract`
and `title` are filled, lines 93-101), so not every one of the five text
fields is null-free afterwards. -/
theorem C1_counterexample :
    allTextFieldsFilled (fillTextExplore [("journal", [none])] 1) = false := by
  decide

/-- Claim C1 (amended): after the text-field fill of the batch explorer,
`abstract` and `title` are present and never null — an absent column is
synthesized as all-empty-string and nulls are replaced by the empty string —
while `authors`, `journal` and `source_x` are not filled there. -/
theorem C1_fill_abstract_title (t : Table) (n : Nat) :
    textFieldFilled (fillTextExplore t n) "abstract" = true ∧
      textFieldFilled (fillTextExplore t n) "title" = true :=
  fillTextExplore_filled t n

/-- Claim C2: every entry of the top-title-words table — built by
lowercasing, concatenating, tokenizing on `\w+`, dropping stopwords and
tokens of length at most 2, counting, and keeping the 200 most frequent —
is neither a configured stopword nor a token of length at most 2. -/
theorem C2_top_words_filtered (titles : List (List Char)) (w : List Char)
    (c : Nat) (h : (w, c) ∈ topTitleWords titles) :
    w ∉ stopwords ∧ 2 < w.length :=
  mem_topTitleWords h

theorem C2_witness :
    (("vaccine".data, 2) ∈ topTitleWords ["vaccine trial vaccine".data]) ∧
      ("vaccine".data ∉ stopwords ∧ 2 < "vaccine".data.length) :=
  ⟨by decide,
    C2_top_words_filtered ["vaccine trial vaccine".data] "vaccine".data 2
      (by decide)⟩

/-- Claim C3: for every requested sample size `n > 0`, sampling draws
exactly `min n total` rows, is a deterministic function of seed and input
(so two runs on the same input agree), and when `n` is at least the row
count the sample is a permutation of — so contains — all input rows. -/
theorem C3_sample {α : Type} (rows : List α) (n : Nat) (hn : 0 < n) :
    (sampleDf n rows).length = min n rows.length ∧
      (∀ rows2 : List α, rows2 = rows → sampleDf n rows2 = sampleDf n rows) ∧
      (rows.length ≤ n → List.Perm (sampleDf n rows) rows) := by
  refine ⟨?_, fun rows2 h2 => by rw [h2], fun hle => ?_⟩
  · unfold sampleDf
    rw [drawAux_length]
    omega
  · unfold sampleDf
    have hmin : min n rows.length = rows.length := Nat.min_eq_right hle
    rw [hmin]
    exact drawAux_perm _ _ _ (Nat.le_refl _)

theorem C3_witness :
    (sampleDf 5 ([10, 20, 30] : List Nat)).length = min 5 3 ∧
      List.Perm (sampleDf 5 ([10, 20, 30] : List Nat)) [10, 20, 30] :=
  ⟨(C3_sample [10, 20, 30] 5 (by decide)).1,
    (C3_sample [10, 20, 30] 5 (by decide)).2.2 (by decide)⟩

/-- Claim C4: column normalization is exactly the composite transform the
specification describes (strip, lowercase, replace space/slash/hyphen/`#`
with underscore, delete other non-word characters), and every character of
a normalized header is a digit, a lowercase letter or an underscore — in
particular never whitespace, so there is no leading or trailing
whitespace. -/
theorem C4_normalize_canonical (l : List Char) :
    normalizeColumn l = specNormalizeColumn l ∧
      ∀ c ∈ normalizeColumn l, isCanonical c = true ∧ isWs c = false :=
  ⟨rfl, fun _ hc =>
    ⟨mem_normalizeColumn_canonical hc,
      canonical_not_ws (mem_normalizeColumn_canonical hc)⟩⟩

theorem C4_witness :
    ('p' ∈ normalizeColumn "Pub Time#1".data) ∧
      (isCanonical 'p' = true ∧ isWs 'p' = false) :=
  ⟨by decide,
    (C4_normalize_canonical "Pub Time#1".data).2 'p' (by decide)⟩

/-- Claim C5: column normalization is idempotent — normalizing an already
normalized header changes nothing. -/
theorem C5_normalize_idem (l : List Char) :
    normalizeColumn (normalizeColumn l) = normalizeColumn l :=
  normalizeColumn_idem l

/-- Claim C6, as stated, is false on the code: `df.columns = new_cols`
relabels the columns positionally, so two raw headers that normalize to the
same name both remain in the table under that name — the table does not end
up with a single column holding the last colliding column's data. -/
theorem C6_counterexample :
    ¬ ((normalizeTable exCollide).filter fun p => p.1 == "title")
        = [("title", [some "b"])] := by
  decide

/-- Claim C6 (amended): collisions after normalization are not resolved at
all — every column keeps its data and its position, only the label is
rewritten, so all colliding input columns are retained under the same
normalized name in input order. -/
theorem C6_collisions_retained (t : Table) :
    (normalizeTable t).map Prod.snd = t.map Prod.snd ∧
      (normalizeTable t).map Prod.fst = t.map (fun p => normName p.1) ∧
      (normalizeTable t).length = t.length := by
  refine ⟨?_, ?_, by simp [normalizeTable]⟩
  · rw [normalizeTable, List.map_map]
    rfl
  · rw [normalizeTable, List.map_map]
    rfl

/-- Claim C7: deriving `year` never raises (it is a total function): with no
`publish_time` column the `year` column is present and all-null; with one,
each null or unparseable cell yields a null year and each parsed date
yields its calendar year. -/
theorem C7_year_derivation (t : Table) (n : Nat) :
    (getCol t "publish_time" = none →
        deriveYear t n = List.replicate n none) ∧
      (∀ col, getCol t "publish_time" = some col →
        deriveYear t n = col.map yearCell) ∧
      (∀ s, toDatetime s = none → yearCell (some s) = none) ∧
      yearCell none = none ∧
      (∀ s y m d, toDatetime s = some (y, m, d) →
        yearCell (some s) = some y) := by
  refine ⟨fun h => ?_, fun col h => ?_, fun s h => ?_, rfl, fun s y m d h => ?_⟩
  · unfold deriveYear
    rw [h]
  · unfold deriveYear
    rw [h]
  · unfold yearCell
    rw [show (some s).bind toDatetime = toDatetime s from rfl, h]
    rfl
  · unfold yearCell
    rw [show (some s).bind toDatetime = toDatetime s from rfl, h]
    rfl

theorem C7_witness :
    deriveYear [("publish_time",
        [some "2020-03-15", some "notadate", none])] 3 =
      [some 2020, none, none] :=
  ((C7_year_derivation
      [("publish_time", [some "2020-03-15", some "notadate", none])] 3).2.1
    [some "2020-03-15", some "notadate", none] (by decide)).trans (by decide)

/-- Claim C8: after the text-field fill, the word-count columns carry a
(non-negative, being `Nat`-valued) count for every row, that count is the
number of whitespace-delimited tokens of the corresponding post-fill text
field, and the empty string counts 0 tokens. -/
theorem C8_word_counts (t : Table) (n : Nat) :
    (abstractWordCounts (fillTextExplore t n)).all Option.isSome = true ∧
      (titleWordCounts (fillTextExplore t n)).all Option.isSome = true ∧
      (∀ s : String, wordCountCell (some s) =
        some (pySplit s.data).length) ∧
      wordCount "".data = 0 := by
  refine ⟨?_, ?_, fun s => rfl, rfl⟩
  · exact filled_wordCounts_some (fillTextExplore_filled t n).1
  · exact filled_wordCounts_some (fillTextExplore_filled t n).2

/-- Claim C9, as stated, is false on the code: `\w+` tokenization does not
cross the hyphen of `COVID-19`, so `covid19` is never among the title's
tokens and cannot be what the stopword filter drops. -/
theorem C9_counterexample :
    "covid19".data ∉
      tokenize (("COVID-19 vaccine trial results".data).map lowerChar) := by
  decide

/-- Claim C9 (amended): the title `COVID-19 vaccine trial results`
tokenizes (after lowercasing) to `covid`, `19`, `vaccine`, `trial`,
`results`; the filter keeps exactly `vaccine`, `trial`, `results`,
dropping `covid` as a stopword and `19` for having length at most 2. -/
theorem C9_example_tokens :
    filterTokens
        (tokenize (("COVID-19 vaccine trial results".data).map lowerChar)) =
      ["vaccine".data, "trial".data, "results".data] ∧
      tokenize (("COVID-19 vaccine trial results".data).map lowerChar) =
        ["covid".data, "19".data, "vaccine".data, "trial".data,
          "results".data] ∧
      "covid".data ∈ stopwords ∧ "19".data.length ≤ 2 := by
  decide

/-- Claim C10: in the interactive viewer, whenever some loaded row has a
non-null year, the year-range filter is applied and a null-year row
satisfies neither comparison of the mask, so no null-year row survives the
filter for any selected range. -/
theorem C10_year_filter_excludes_null (rows : List AppRow) (lo hi : Int)
    (h : (rows.any fun r => r.year.isSome) = true) :
    ∀ r ∈ applyYearFilter lo hi rows, r.year ≠ none := by
  intro r hr
  unfold applyYearFilter at hr
  rw [if_pos h] at hr
  have hm := (List.mem_filter.mp hr).2
  unfold yearInRange at hm
  cases hy : r.year with
  | none => rw [hy] at hm; exact absurd hm Bool.false_ne_true
  | some y => simp [hy]

theorem C10_witness :
    (([⟨some 2020⟩, ⟨none⟩] : List AppRow).any fun r => r.year.isSome)
        = true ∧
      (⟨some 2020⟩ : AppRow) ∈
        applyYearFilter (-100000) 100000 [⟨some 2020⟩, ⟨none⟩] ∧
      (⟨some 2020⟩ : AppRow).year ≠ none :=
  ⟨by decide, by decide,
    C10_year_filter_excludes_null [⟨some 2020⟩, ⟨none⟩] (-100000) 100000
      (by decide) ⟨some 2020⟩ (by decide)⟩

end WF
